import Mathlib

/-!
Shallow embedding of the game core of theseus-and-the-minotaur.py.

Coordinates are pairs of integers (x, y); the Python source uses plain int
tuples.  The maze is a list of rows of tiles, addressed by y then x.  The
mutable Python State named tuple becomes an immutable structure, and each
iteration of the in-place main loop becomes a function from state to state.
-/

namespace Theseus

/-- The MazeTile enumeration of the source (EMPTY, WALL, WALKABLE, FINISH). -/
inductive MazeTile where
  | empty
  | wall
  | walkable
  | finish
deriving DecidableEq

/-- The Move enumeration of the source. -/
inductive Move where
  | up
  | down
  | left
  | right
  | skip
  | quit
  | undo
  | auto
deriving DecidableEq

/-- Coord = Tuple[int, int] in the source. -/
abbrev Coord : Type := Int × Int

/-- Maze = List[List[MazeTile]] in the source. -/
abbrev Maze : Type := List (List MazeTile)

/-- The Turn named tuple: player position, minotaur position, moves so far. -/
structure Turn where
  player : Coord
  minotaur : Coord
  moves : List Move
deriving DecidableEq

/-- The traversed dictionary of the source, mapping a
(player, minotaur) configuration key to its set of unchecked moves.
A key that was never inserted maps to none. -/
abbrev Traversed : Type := Coord × Coord → Option (Finset Move)

/-- The State named tuple of the source, with the same fields.
The initial move queue and the solver flag only drive input acquisition
(lines 234 to 242), which is modelled by passing each move explicitly. -/
structure State where
  maze : Maze
  finish : Coord
  initial : List Move
  turns : List Turn
  traversed : Traversed
  solver : Bool

/-- isLocValid of the source: a location is valid when its row index and
column index are in range and the tile there is not a wall.  Row widths may
differ, the column bound is checked against the row selected by y. -/
def isLocValid (maze : Maze) (loc : Coord) : Bool :=
  if loc.2 < 0 ∨ (maze.length : Int) ≤ loc.2 ∨ loc.1 < 0 ∨
      ((maze.getD loc.2.toNat []).length : Int) ≤ loc.1 then
    false
  else if (maze.getD loc.2.toNat []).getD loc.1.toNat MazeTile.empty = MazeTile.wall then
    false
  else
    true

/-- validMoves of the source: SKIP always, and each direction whose
intermediate cell one step away is valid. -/
def validMoves (maze : Maze) (coord : Coord) : Finset Move :=
  let s0 : Finset Move := {Move.skip}
  let s1 := if isLocValid maze (coord.1, coord.2 - 1) then insert Move.up s0 else s0
  let s2 := if isLocValid maze (coord.1, coord.2 + 1) then insert Move.down s1 else s1
  let s3 := if isLocValid maze (coord.1 - 1, coord.2) then insert Move.left s2 else s2
  if isLocValid maze (coord.1 + 1, coord.2) then insert Move.right s3 else s3

/-- movePlayer of the source: skip is always accepted and leaves the position
unchanged; a directional move is accepted iff the intermediate cell one step
away is valid, and then moves two cells; any other move is rejected. -/
def movePlayer (maze : Maze) (player : Coord) (move : Move) : Coord × Bool :=
  match move with
  | Move.up =>
      if isLocValid maze (player.1, player.2 - 1) then ((player.1, player.2 - 2), true)
      else (player, false)
  | Move.down =>
      if isLocValid maze (player.1, player.2 + 1) then ((player.1, player.2 + 2), true)
      else (player, false)
  | Move.left =>
      if isLocValid maze (player.1 - 1, player.2) then ((player.1 - 2, player.2), true)
      else (player, false)
  | Move.right =>
      if isLocValid maze (player.1 + 1, player.2) then ((player.1 + 2, player.2), true)
      else (player, false)
  | Move.skip => (player, true)
  | _ => (player, false)

/-- moveMinotaur of the source.  The local variable move starts as SKIP, is
possibly overwritten by the horizontal comparison, and, when the vertical
comparison on y finds equality, keeps its previous (horizontal) value, exactly
as the Python local does. -/
def moveMinotaur (maze : Maze) (player minotaur : Coord) : Coord :=
  let hMove : Move :=
    if player.1 < minotaur.1 then Move.left
    else if player.1 > minotaur.1 then Move.right
    else Move.skip
  let afterH := (movePlayer maze minotaur hMove).1
  if afterH ≠ minotaur then afterH
  else
    let vMove : Move :=
      if player.2 < minotaur.2 then Move.up
      else if player.2 > minotaur.2 then Move.down
      else hMove
    (movePlayer maze minotaur vMove).1

/-- Modelled from the spec (section 4.3): the pursuit step exactly as the
spec words it, attempting the horizontal move chosen by comparing x
coordinates, returning its result when it is accepted and changes the
position, and otherwise attempting the vertical move chosen by comparing y
coordinates (skip when equal) and returning whatever the resolver yields.
Used only to compare the source function against the spec wording. -/
def minotaurStepSpec (maze : Maze) (player minotaur : Coord) : Coord :=
  let hMove : Move :=
    if player.1 < minotaur.1 then Move.left
    else if player.1 > minotaur.1 then Move.right
    else Move.skip
  let attempt := movePlayer maze minotaur hMove
  if attempt.2 = true ∧ attempt.1 ≠ minotaur then attempt.1
  else
    let vMove : Move :=
      if player.2 < minotaur.2 then Move.up
      else if player.2 > minotaur.2 then Move.down
      else Move.skip
    (movePlayer maze minotaur vMove).1

/-- The cell one step from p in the direction of a directional move
(the intermediate cell of the spec); p itself for other moves. -/
def intermediate (p : Coord) (move : Move) : Coord :=
  match move with
  | Move.up => (p.1, p.2 - 1)
  | Move.down => (p.1, p.2 + 1)
  | Move.left => (p.1 - 1, p.2)
  | Move.right => (p.1 + 1, p.2)
  | _ => p

/-- The cell two steps from p in the direction of a directional move
(the destination cell of the spec); p itself for other moves. -/
def destination (p : Coord) (move : Move) : Coord :=
  match move with
  | Move.up => (p.1, p.2 - 2)
  | Move.down => (p.1, p.2 + 2)
  | Move.left => (p.1 - 2, p.2)
  | Move.right => (p.1 + 2, p.2)
  | _ => p

/-- True exactly for the four directional moves. -/
def isDirectional (move : Move) : Bool :=
  match move with
  | Move.up => true
  | Move.down => true
  | Move.left => true
  | Move.right => true
  | _ => false

/-- True for the five actor moves (directional moves and skip), the legal
inputs of the movement resolver per the spec. -/
def isActorMove (move : Move) : Bool :=
  match move with
  | Move.skip => true
  | m => isDirectional m

/-- The MazeTile(char) constructor call of the source (line 82): the tile
whose glyph is the given character, or none, in which case the source raises
a ValueError and aborts loading. -/
def parseTile (c : Char) : Option MazeTile :=
  if c = ' ' then some MazeTile.empty
  else if c = '#' then some MazeTile.wall
  else if c = '.' then some MazeTile.walkable
  else if c = 'X' then some MazeTile.finish
  else none

/-- The player, minotaur and finish coordinates accumulated while loading;
each starts at (0, 0) as in loadMaze lines 63 to 65. -/
structure LoadSt where
  player : Coord
  minotaur : Coord
  finish : Coord
deriving DecidableEq

/-- One character of the loading loop (lines 70 to 84): the player glyph
records the player position and leaves a walkable tile, likewise the
minotaur glyph; the finish glyph records the finish position and leaves an
empty tile; any other character must be a tile glyph. -/
def loadChar (y x : Int) (c : Char) (st : LoadSt) : Option (MazeTile × LoadSt) :=
  if c = '*' then some (MazeTile.walkable, { st with player := (x, y) })
  else if c = 'M' then some (MazeTile.walkable, { st with minotaur := (x, y) })
  else if c = 'X' then some (MazeTile.empty, { st with finish := (x, y) })
  else
    match parseTile c with
    | some t => some (t, st)
    | none => none

/-- The inner loading loop over one line, starting at column x. -/
def loadRowAux (y x : Int) (cs : List Char) (st : LoadSt) :
    Option (List MazeTile × LoadSt) :=
  match cs with
  | [] => some ([], st)
  | c :: rest =>
    match loadChar y x c st with
    | none => none
    | some (t, st1) =>
      match loadRowAux y (x + 1) rest st1 with
      | none => none
      | some (row, st2) => some (t :: row, st2)

/-- The outer loading loop over the lines, starting at row y. -/
def loadMazeAux (y : Int) (lines : List (List Char)) (st : LoadSt) :
    Option (Maze × LoadSt) :=
  match lines with
  | [] => some ([], st)
  | l :: rest =>
    match loadRowAux y 0 l st with
    | none => none
    | some (row, st1) =>
      match loadMazeAux (y + 1) rest st1 with
      | none => none
      | some (maze, st2) => some (row :: maze, st2)

/-- loadMaze of the source, taking the already stripped lines of the file as
lists of characters.  It builds the maze, remembers the last occurrence of
each glyph, computes the valid moves from the player start, and creates the
one-entry traversed table and the single initial turn. -/
def loadMaze (lines : List (List Char)) : Option State :=
  match loadMazeAux 0 lines ⟨(0, 0), (0, 0), (0, 0)⟩ with
  | none => none
  | some (maze, st) =>
    let moves := validMoves maze st.player
    let subState : Turn := ⟨st.player, st.minotaur, []⟩
    let traversed : Traversed :=
      fun k => if k = (st.player, st.minotaur) then some moves else none
    some ⟨maze, st.finish, [], [subState], traversed, false⟩

/-- The current turn, state.turns[-1] in the source.  The source indexes a
list that is never empty (one turn is created at load time and undo keeps at
least one); the default only makes the function total. -/
def currentTurn (s : State) : Turn := s.turns.getLastD ⟨(0, 0), (0, 0), []⟩

/-- The configuration key of the current turn. -/
def currentKey (s : State) : Coord × Coord :=
  ((currentTurn s).player, (currentTurn s).minotaur)

/-- A dictionary update: the table with key k now mapped to v. -/
def updateTable (t : Traversed) (k : Coord × Coord) (v : Finset Move) : Traversed :=
  fun k2 => if k2 = k then some v else t k2

/-- The current configuration is a loss (player on minotaur) or a win
(player on finish), the condition of lines 261 and 284. -/
def isTerminal (s : State) : Prop :=
  (currentTurn s).player = (currentTurn s).minotaur ∨ (currentTurn s).player = s.finish

instance (s : State) : Decidable (isTerminal s) := by
  unfold isTerminal; infer_instance

/-- Lines 273 to 291 of mainLoop, applying an accepted player move: step
the minotaur twice (the second call from the position the first call
produced), fetch the unchecked set of the new configuration from the table
when present and compute it by validMoves otherwise, force it empty when
the new configuration is terminal, store it under the new key and append
the new turn. -/
def acceptedState (s : State) (traversed1 : Traversed) (move : Move)
    (player : Coord) : State :=
  let minotaur1 := moveMinotaur s.maze player (currentTurn s).minotaur
  let minotaur2 := moveMinotaur s.maze player minotaur1
  let unchecked2 : Finset Move :=
    match traversed1 (player, minotaur2) with
    | some u => u
    | none => validMoves s.maze player
  let unchecked3 : Finset Move :=
    if player = minotaur2 ∨ player = s.finish then ∅ else unchecked2
  { s with
    traversed := updateTable traversed1 (player, minotaur2) unchecked3,
    turns := s.turns ++ [⟨player, minotaur2, (currentTurn s).moves ++ [move]⟩] }

/-- Lines 266 and 267: the traversed table after removing the move from the
unchecked set of the current configuration when it is a member there. -/
def consumedTable (s : State) (unchecked : Finset Move) (move : Move) : Traversed :=
  if move ∈ unchecked then
    updateTable s.traversed (currentKey s) (unchecked.erase move)
  else s.traversed

/-- Lines 265 to 291 with the unchecked set of the current configuration in
hand: remove the move from that set when present (lines 266 and 267),
resolve the player move (line 269), return with only that removal on a
rejected move (lines 270 and 271), and otherwise apply the accepted move. -/
def mainLoopCore (s : State) (unchecked : Finset Move) (move : Move) : State :=
  let traversed1 := consumedTable s unchecked move
  let res := movePlayer s.maze (currentTurn s).player move
  if res.2 = false then { s with traversed := traversed1 }
  else acceptedState s traversed1 move res.1

/-- One iteration of mainLoop (lines 256 to 291) on an already resolved
move.  Input acquisition (lines 234 to 242) is outside; QUIT exits the
process at line 246 and AUTO is replaced by another move at lines 248 to
254, so neither reaches this code in the source.  UNDO pops the last turn
when more than one exists.  When the current configuration is terminal the
state is returned unchanged.  Otherwise the body of the loop runs with the
unchecked set of the current configuration.  The source reads
state.traversed[key] at line 266, raising KeyError when the current key is
absent; that never happens for states made by loadMaze and this function,
and the absent case here returns the state unchanged. -/
def mainLoopStep (s : State) (move : Move) : State :=
  if move = Move.undo then
    if 1 < s.turns.length then { s with turns := s.turns.dropLast } else s
  else if (currentTurn s).player = (currentTurn s).minotaur ∨
      (currentTurn s).player = s.finish then
    s
  else
    match s.traversed (currentKey s) with
    | none => s
    | some unchecked => mainLoopCore s unchecked move

/-- The AUTO resolution of lines 248 to 254: read the unchecked set of the
current configuration, resolve to UNDO when it is empty, and otherwise to a
random member of the set; the random choice is modelled by the pick
function.  The source raises KeyError when the current key is absent from
the table (none here). -/
def resolveAuto (s : State) (pick : Finset Move → Move) : Option Move :=
  match s.traversed (currentKey s) with
  | none => none
  | some unchecked =>
    some (if unchecked = ∅ then Move.undo else pick unchecked)

/-- One full iteration of mainLoop on a raw input move: printMaze exits the
process when the current configuration is a win (line 123), QUIT exits at
line 246, AUTO is resolved by resolveAuto, and the resulting move is
processed by mainLoopStep.  none models a process exit (or the KeyError of
an AUTO resolution at an untracked key). -/
def mainLoopInput (s : State) (input : Move) (pick : Finset Move → Move) :
    Option State :=
  if (currentTurn s).player = s.finish then none
  else if input = Move.quit then none
  else if input = Move.auto then
    match resolveAuto s pick with
    | none => none
    | some mv => some (mainLoopStep s mv)
  else some (mainLoopStep s input)

/-- Several iterations of the main loop on a list of already resolved
moves. -/
def runMoves (s : State) (ms : List Move) : State :=
  ms.foldl mainLoopStep s

/-! Concrete mazes and sessions used to evaluate the definitions. -/

/-- A fallback state used only to make Option.getD total on concrete
sessions below. -/
def emptyState : State := ⟨[], (0, 0), [], [], fun _ => none, false⟩

/-- A one-row maze whose player glyph is at column 0 and which has no finish
glyph, so the recorded finish stays at its (0, 0) initial value and the
loaded configuration is already a win. -/
def winLines : List (List Char) := [['*', '.', 'M']]

/-- The state loaded from winLines. -/
def winS : State := (loadMaze winLines).getD emptyState

/-- A one-row maze with the finish at column 0, the player at column 2 and
the minotaur at column 4; moving right puts the player onto the minotaur. -/
def lossLines : List (List Char) := [['X', '.', '*', '.', 'M']]

/-- The state loaded from lossLines. -/
def lossS0 : State := (loadMaze lossLines).getD emptyState

/-- The state after the one accepted right move from lossS0: the player
lands on the minotaur, so the current configuration is a loss. -/
def lossS1 : State := mainLoopStep lossS0 Move.right

/-- A one-row maze of two walkable cells with no surrounding walls: a right
move from column 0 has a valid intermediate cell but a destination outside
the row. -/
def openMaze : Maze := [[MazeTile.walkable, MazeTile.walkable]]

/-- A one-row maze whose minotaur is sealed behind a wall: a skip move is
accepted and changes nothing, so the configuration key reached is the
current key itself, already present in the table. -/
def memoLines : List (List Char) := [['X', '.', '*', '.', '#', 'M']]

/-- The state loaded from memoLines. -/
def memoS0 : State := (loadMaze memoLines).getD emptyState

/-- A closed one-cell maze surrounded by walls. -/
def closedMaze : Maze :=
  [[MazeTile.wall, MazeTile.wall, MazeTile.wall],
   [MazeTile.wall, MazeTile.walkable, MazeTile.wall],
   [MazeTile.wall, MazeTile.wall, MazeTile.wall]]

/-- An arbitrary pick function standing in for random.choice where the
choice does not matter. -/
def anyPick : Finset Move → Move := fun _ => Move.skip

/-- The player position produced by resolving a move from the current turn
(line 269). -/
def newPlayer (s : State) (mv : Move) : Coord :=
  (movePlayer s.maze (currentTurn s).player mv).1

/-- The minotaur position after its two pursuit steps (lines 274 and 275),
both from the post-move player position, the second from the position the
first produced. -/
def newMinotaur (s : State) (mv : Move) : Coord :=
  moveMinotaur s.maze (newPlayer s mv)
    (moveMinotaur s.maze (newPlayer s mv) (currentTurn s).minotaur)

/-- The configuration key reached by an accepted move. -/
def newKey (s : State) (mv : Move) : Coord × Coord :=
  (newPlayer s mv, newMinotaur s mv)

/-! Basic lemmas about the movement resolver. -/

/-- A rejected move leaves the position unchanged. -/
lemma movePlayer_reject_fst (maze : Maze) (p : Coord) (mv : Move)
    (h : (movePlayer maze p mv).2 = false) : (movePlayer maze p mv).1 = p := by
  cases mv <;> simp only [movePlayer] at h ⊢ <;> split_ifs at h ⊢ <;> simp_all

/-- A move whose result differs from the input is an accepted directional
move through a valid intermediate cell, landing on the destination cell. -/
lemma movePlayer_moved (maze : Maze) (p : Coord) (mv : Move)
    (h : (movePlayer maze p mv).1 ≠ p) :
    isDirectional mv = true ∧ isLocValid maze (intermediate p mv) = true ∧
      movePlayer maze p mv = (destination p mv, true) := by
  cases mv <;>
    simp only [movePlayer, isDirectional, intermediate, destination] at h ⊢ <;>
    (try split_ifs at h ⊢) <;> simp_all

/-- The position returned by movePlayer is the input or the destination of a
directional move. -/
lemma movePlayer_fst_cases (maze : Maze) (p : Coord) (mv : Move) :
    (movePlayer maze p mv).1 = p ∨
      (isDirectional mv = true ∧ (movePlayer maze p mv).1 = destination p mv) := by
  cases mv <;> simp only [movePlayer, isDirectional, destination] <;>
    (try split_ifs) <;> simp

/-! Claim theorems. -/

/-- C1: for every maze and every player and minotaur coordinate, moveMinotaur
equals the pursuit step as the spec words it: the horizontal move chosen by
comparing x coordinates is attempted first, its result is returned when it is
accepted and changes the position, and otherwise the vertical move chosen by
the same comparison on y (skip when equal) is attempted and its result is
returned even when unchanged. -/
theorem c1_moveMinotaur_matches_spec (maze : Maze) (player minotaur : Coord) :
    moveMinotaur maze player minotaur = minotaurStepSpec maze player minotaur := by
  unfold moveMinotaur minotaurStepSpec
  set hMove : Move :=
    if player.1 < minotaur.1 then Move.left
    else if player.1 > minotaur.1 then Move.right
    else Move.skip with hHdef
  by_cases hmoved : (movePlayer maze minotaur hMove).1 ≠ minotaur
  · have hacc : (movePlayer maze minotaur hMove).2 = true := by
      cases h : (movePlayer maze minotaur hMove).2 with
      | false => exact absurd (movePlayer_reject_fst maze minotaur hMove h) hmoved
      | true => rfl
    rw [if_pos hmoved, if_pos ⟨hacc, hmoved⟩]
  · push_neg at hmoved
    have hnot : ¬ ((movePlayer maze minotaur hMove).2 = true ∧
        (movePlayer maze minotaur hMove).1 ≠ minotaur) := by
      intro h
      exact h.2 hmoved
    rw [if_neg (by simpa using hmoved), if_neg hnot]
    by_cases hy1 : player.2 < minotaur.2
    · rw [if_pos hy1, if_pos hy1]
    · rw [if_neg hy1, if_neg hy1]
      by_cases hy2 : player.2 > minotaur.2
      · rw [if_pos hy2, if_pos hy2]
      · rw [if_neg hy2, if_neg hy2, hmoved]
        simp [movePlayer]

/-- C2: the movement resolver accepts skip unchanged, accepts a directional
move exactly when its intermediate cell is valid and then lands on the
destination two cells along that axis and zero along the other, rejects a
directional move with an invalid intermediate cell leaving the position
unchanged, and rejects quit, undo and auto unchanged. -/
theorem c2_movePlayer_resolver (maze : Maze) (p : Coord) (mv : Move) :
    movePlayer maze p Move.skip = (p, true) ∧
    (isDirectional mv = true →
      movePlayer maze p mv =
        if isLocValid maze (intermediate p mv) = true then (destination p mv, true)
        else (p, false)) ∧
    ((mv = Move.quit ∨ mv = Move.undo ∨ mv = Move.auto) →
      movePlayer maze p mv = (p, false)) ∧
    (isDirectional mv = true →
      ((destination p mv).1 = p.1 ∧
        ((destination p mv).2 - p.2 = 2 ∨ (destination p mv).2 - p.2 = -2)) ∨
      ((destination p mv).2 = p.2 ∧
        ((destination p mv).1 - p.1 = 2 ∨ (destination p mv).1 - p.1 = -2))) := by
  refine ⟨rfl, ?_, ?_, ?_⟩
  · intro hd
    cases mv <;> simp_all [movePlayer, isDirectional, intermediate, destination]
  · intro hq
    rcases hq with h | h | h <;> subst h <;> rfl
  · intro hd
    cases mv <;> simp_all [isDirectional, destination]

/-- Witness for C2 at concrete inputs: in the closed one-cell maze an up
move from the center is rejected, and quit is rejected unchanged. -/
theorem c2_witness :
    movePlayer closedMaze (1, 1) Move.up = ((1, 1), false) ∧
    movePlayer closedMaze (1, 1) Move.quit = ((1, 1), false) := by
  constructor
  · have h := (c2_movePlayer_resolver closedMaze (1, 1) Move.up).2.1 rfl
    rw [h]
    decide
  · exact (c2_movePlayer_resolver closedMaze (1, 1) Move.quit).2.2.1 (Or.inl rfl)

/-! Small list lemmas for the turn stack. -/

lemma getLastD_append_single {α : Type} (l : List α) (a d : α) :
    (l ++ [a]).getLastD d = a := by
  rw [List.getLastD_eq_getLast?, List.getLast?_concat]
  rfl

lemma dropLast_append_single {α : Type} (l : List α) (a : α) :
    (l ++ [a]).dropLast = l := by
  simp

/-! Characterizations of one main loop iteration. -/

/-- An undo iteration pops the last turn exactly when more than one turn
exists. -/
lemma mainLoopStep_undo (s : State) :
    mainLoopStep s Move.undo =
      if 1 < s.turns.length then { s with turns := s.turns.dropLast } else s := by
  simp [mainLoopStep]

/-- A non-undo iteration at a terminal configuration returns the state
unchanged. -/
lemma mainLoopStep_terminal (s : State) (mv : Move) (hmv : mv ≠ Move.undo)
    (ht : (currentTurn s).player = (currentTurn s).minotaur ∨
      (currentTurn s).player = s.finish) :
    mainLoopStep s mv = s := by
  unfold mainLoopStep
  rw [if_neg hmv, if_pos ht]

/-- A non-undo iteration at a non-terminal configuration whose key is
tracked runs the loop body with the unchecked set of that key. -/
lemma mainLoopStep_some (s : State) (mv : Move) (w : Finset Move)
    (hmv : mv ≠ Move.undo)
    (ht : ¬ ((currentTurn s).player = (currentTurn s).minotaur ∨
      (currentTurn s).player = s.finish))
    (hw : s.traversed (currentKey s) = some w) :
    mainLoopStep s mv = mainLoopCore s w mv := by
  unfold mainLoopStep
  rw [if_neg hmv, if_neg ht, hw]

/-- A rejected move only performs the consumption of lines 266 and 267. -/
lemma mainLoopCore_rejected (s : State) (w : Finset Move) (mv : Move)
    (hrej : (movePlayer s.maze (currentTurn s).player mv).2 = false) :
    mainLoopCore s w mv = { s with traversed := consumedTable s w mv } := by
  simp only [mainLoopCore]
  rw [if_pos hrej]

/-- An accepted move applies acceptedState to the consumed table and the
new player position. -/
lemma mainLoopCore_accepted (s : State) (w : Finset Move) (mv : Move)
    (hacc : (movePlayer s.maze (currentTurn s).player mv).2 = true) :
    mainLoopCore s w mv =
      acceptedState s (consumedTable s w mv) mv (newPlayer s mv) := by
  simp only [mainLoopCore, newPlayer]
  rw [if_neg (by simp [hacc])]

/-- The turn stack after an accepted move: the new turn is appended. -/
lemma acceptedState_turns (s : State) (t1 : Traversed) (mv : Move) (p : Coord) :
    (acceptedState s t1 mv p).turns =
      s.turns ++
        [⟨p, moveMinotaur s.maze p (moveMinotaur s.maze p (currentTurn s).minotaur),
          (currentTurn s).moves ++ [mv]⟩] := rfl

/-- The table after an accepted move: the new key is mapped to the memoized
set when tracked and to the fresh valid moves otherwise, forced empty on a
terminal configuration, on top of the consumed table. -/
lemma acceptedState_traversed (s : State) (t1 : Traversed) (mv : Move) (p : Coord) :
    (acceptedState s t1 mv p).traversed =
      (let m2 := moveMinotaur s.maze p (moveMinotaur s.maze p (currentTurn s).minotaur)
       updateTable t1 (p, m2)
        (if p = m2 ∨ p = s.finish then ∅
         else match t1 (p, m2) with
           | some u => u
           | none => validMoves s.maze p)) := rfl

/-- The pursuit step always returns the first component of a movePlayer
call from the minotaur position. -/
lemma moveMinotaur_eq_movePlayer (maze : Maze) (player minotaur : Coord) :
    ∃ mv, moveMinotaur maze player minotaur = (movePlayer maze minotaur mv).1 := by
  simp only [moveMinotaur]
  set hMove : Move :=
    if player.1 < minotaur.1 then Move.left
    else if player.1 > minotaur.1 then Move.right
    else Move.skip with hHdef
  by_cases h : (movePlayer maze minotaur hMove).1 ≠ minotaur
  · rw [if_pos h]
    exact ⟨hMove, rfl⟩
  · rw [if_neg h]
    exact ⟨_, rfl⟩

/-- C7 counterexample: in the open two-cell row, with the player and the
minotaur both on valid cells, the pursuit step returns a position outside
the row bounds, so the move resolver does not on its own keep the minotaur
on in-bounds non-wall cells for every maze. -/
theorem c7_counterexample :
    isLocValid openMaze (1, 0) = true ∧ isLocValid openMaze (0, 0) = true ∧
    moveMinotaur openMaze (1, 0) (0, 0) = (2, 0) ∧
    isLocValid openMaze (2, 0) = false := by decide

/-- C7 amended: if, from the minotaur cell, every direction whose
intermediate cell is open has a valid destination two cells away (the
half-step wall convention of a well formed maze), then the pursuit step
returns a valid cell; and unconditionally a single call changes the
position by zero or two cells along one axis and zero along the other. -/
theorem c7_minotaur_stays_valid (maze : Maze) (player minotaur : Coord)
    (hm : isLocValid maze minotaur = true)
    (hup : isLocValid maze (intermediate minotaur Move.up) = true →
      isLocValid maze (destination minotaur Move.up) = true)
    (hdown : isLocValid maze (intermediate minotaur Move.down) = true →
      isLocValid maze (destination minotaur Move.down) = true)
    (hleft : isLocValid maze (intermediate minotaur Move.left) = true →
      isLocValid maze (destination minotaur Move.left) = true)
    (hright : isLocValid maze (intermediate minotaur Move.right) = true →
      isLocValid maze (destination minotaur Move.right) = true) :
    isLocValid maze (moveMinotaur maze player minotaur) = true ∧
    (((moveMinotaur maze player minotaur).2 = minotaur.2 ∧
        ((moveMinotaur maze player minotaur).1 - minotaur.1 = 0 ∨
         (moveMinotaur maze player minotaur).1 - minotaur.1 = 2 ∨
         (moveMinotaur maze player minotaur).1 - minotaur.1 = -2)) ∨
     ((moveMinotaur maze player minotaur).1 = minotaur.1 ∧
        ((moveMinotaur maze player minotaur).2 - minotaur.2 = 0 ∨
         (moveMinotaur maze player minotaur).2 - minotaur.2 = 2 ∨
         (moveMinotaur maze player minotaur).2 - minotaur.2 = -2))) := by
  obtain ⟨mv, hr⟩ := moveMinotaur_eq_movePlayer maze player minotaur
  by_cases h : (movePlayer maze minotaur mv).1 = minotaur
  · rw [hr, h]
    exact ⟨hm, Or.inl ⟨rfl, Or.inl (by ring)⟩⟩
  · obtain ⟨hd, hi, heq⟩ := movePlayer_moved maze minotaur mv h
    have hfst : (movePlayer maze minotaur mv).1 = destination minotaur mv := by
      rw [heq]
    rw [hr, hfst]
    cases mv with
    | up =>
        exact ⟨hup hi, Or.inr ⟨rfl, Or.inr (Or.inr (by simp only [destination]; ring))⟩⟩
    | down =>
        exact ⟨hdown hi, Or.inr ⟨rfl, Or.inr (Or.inl (by simp only [destination]; ring))⟩⟩
    | left =>
        exact ⟨hleft hi, Or.inl ⟨rfl, Or.inr (Or.inr (by simp only [destination]; ring))⟩⟩
    | right =>
        exact ⟨hright hi, Or.inl ⟨rfl, Or.inr (Or.inl (by simp only [destination]; ring))⟩⟩
    | skip => simp [isDirectional] at hd
    | quit => simp [isDirectional] at hd
    | undo => simp [isDirectional] at hd
    | auto => simp [isDirectional] at hd

/-- Witness for the amended C7 in the closed one-cell maze. -/
theorem c7_witness :
    isLocValid closedMaze (moveMinotaur closedMaze (1, 1) (1, 1)) = true ∧
    (((moveMinotaur closedMaze (1, 1) (1, 1)).2 = ((1 : Int), (1 : Int)).2 ∧
        ((moveMinotaur closedMaze (1, 1) (1, 1)).1 - ((1 : Int), (1 : Int)).1 = 0 ∨
         (moveMinotaur closedMaze (1, 1) (1, 1)).1 - ((1 : Int), (1 : Int)).1 = 2 ∨
         (moveMinotaur closedMaze (1, 1) (1, 1)).1 - ((1 : Int), (1 : Int)).1 = -2)) ∨
     ((moveMinotaur closedMaze (1, 1) (1, 1)).1 = ((1 : Int), (1 : Int)).1 ∧
        ((moveMinotaur closedMaze (1, 1) (1, 1)).2 - ((1 : Int), (1 : Int)).2 = 0 ∨
         (moveMinotaur closedMaze (1, 1) (1, 1)).2 - ((1 : Int), (1 : Int)).2 = 2 ∨
         (moveMinotaur closedMaze (1, 1) (1, 1)).2 - ((1 : Int), (1 : Int)).2 = -2))) :=
  c7_minotaur_stays_valid closedMaze (1, 1) (1, 1) (by decide) (by decide)
    (by decide) (by decide) (by decide)

/-- C10: at a terminal current configuration, processing a directional or
skip move leaves the whole state unchanged, the traversed table included:
the terminal check of line 261 returns before the consumption step of lines
266 and 267 runs. -/
theorem c10_terminal_preserves_table (s : State) (mv : Move)
    (hmv : isActorMove mv = true)
    (ht : (currentTurn s).player = (currentTurn s).minotaur ∨
      (currentTurn s).player = s.finish) :
    mainLoopStep s mv = s ∧
    (mainLoopStep s mv).traversed = s.traversed ∧
    (mainLoopStep s mv).turns = s.turns := by
  have hne : mv ≠ Move.undo := by
    cases mv <;> simp_all [isActorMove, isDirectional]
  have h := mainLoopStep_terminal s mv hne ht
  exact ⟨h, by rw [h], by rw [h]⟩

/-- Witness for C10 at the concrete loss state. -/
theorem c10_witness :
    mainLoopStep lossS1 Move.skip = lossS1 ∧
    (mainLoopStep lossS1 Move.skip).traversed = lossS1.traversed ∧
    (mainLoopStep lossS1 Move.skip).turns = lossS1.turns :=
  c10_terminal_preserves_table lossS1 Move.skip (by decide) (by decide)

/-- C9 counterexample: at the concrete terminal loss configuration the AUTO
input is neither undo nor quit, yet processing it resolves to UNDO on the
empty unchecked set of the configuration and pops a turn, so the turn
history is mutated by an input other than undo and quit. -/
theorem c9_counterexample :
    (currentTurn lossS1).player = (currentTurn lossS1).minotaur ∧
    Move.auto ≠ Move.undo ∧ Move.auto ≠ Move.quit ∧
    lossS1.turns = [⟨(2, 0), (4, 0), []⟩, ⟨(4, 0), (4, 0), [Move.right]⟩] ∧
    (mainLoopInput lossS1 Move.auto anyPick).map (fun s2 => s2.turns) =
      some [⟨(2, 0), (4, 0), []⟩] := by decide

/-- C9 amended: once the current configuration is terminal, every input
other than undo, quit and auto leaves the turn history unchanged; auto must
also be excluded because it can resolve to undo. -/
theorem c9_terminal_blocks_inputs (s s2 : State) (mv : Move)
    (pick : Finset Move → Move)
    (ht : (currentTurn s).player = (currentTurn s).minotaur ∨
      (currentTurn s).player = s.finish)
    (hu : mv ≠ Move.undo) (hq : mv ≠ Move.quit) (ha : mv ≠ Move.auto)
    (hrun : mainLoopInput s mv pick = some s2) :
    s2.turns = s.turns ∧ currentTurn s2 = currentTurn s := by
  unfold mainLoopInput at hrun
  by_cases hwin : (currentTurn s).player = s.finish
  · rw [if_pos hwin] at hrun
    exact absurd hrun (by simp)
  · rw [if_neg hwin, if_neg hq, if_neg ha] at hrun
    rw [mainLoopStep_terminal s mv hu ht] at hrun
    have hs : s = s2 := by
      injection hrun
    rw [← hs]
    exact ⟨rfl, rfl⟩

/-- Witness for the amended C9 at the concrete loss state with a skip
input. -/
theorem c9_witness :
    lossS1.turns = lossS1.turns ∧ currentTurn lossS1 = currentTurn lossS1 :=
  c9_terminal_blocks_inputs lossS1 lossS1 Move.skip anyPick (by decide)
    (by decide) (by decide) (by decide) rfl

/-- A non-undo iteration at a non-terminal configuration whose key is not
tracked returns the state unchanged (the source would raise KeyError
here). -/
lemma mainLoopStep_none (s : State) (mv : Move) (hmv : mv ≠ Move.undo)
    (ht : ¬ ((currentTurn s).player = (currentTurn s).minotaur ∨
      (currentTurn s).player = s.finish))
    (hw : s.traversed (currentKey s) = none) :
    mainLoopStep s mv = s := by
  unfold mainLoopStep
  rw [if_neg hmv, if_neg ht, hw]

/-- C5: undo is the exact inverse of the push performed by an accepted
move: undoing right after any accepted move restores the previous turn
stack and hence the previous (player, minotaur, moveHistory) triple as the
current turn; and in general undo removes the current head exactly when
more than one turn exists and is a no-op otherwise. -/
theorem c5_undo_inverse (s t : State) (mv : Move) (w : Finset Move)
    (hne : s.turns ≠ [])
    (hmv : mv ≠ Move.undo)
    (ht : ¬ ((currentTurn s).player = (currentTurn s).minotaur ∨
      (currentTurn s).player = s.finish))
    (hw : s.traversed (currentKey s) = some w)
    (hacc : (movePlayer s.maze (currentTurn s).player mv).2 = true) :
    (mainLoopStep (mainLoopStep s mv) Move.undo).turns = s.turns ∧
    currentTurn (mainLoopStep (mainLoopStep s mv) Move.undo) = currentTurn s ∧
    ((1 < t.turns.length →
        (mainLoopStep t Move.undo).turns = t.turns.dropLast) ∧
     (¬ 1 < t.turns.length → mainLoopStep t Move.undo = t)) := by
  have hstep : (mainLoopStep s mv).turns =
      s.turns ++ [⟨newPlayer s mv, newMinotaur s mv, (currentTurn s).moves ++ [mv]⟩] := by
    rw [mainLoopStep_some s mv w hmv ht hw, mainLoopCore_accepted s w mv hacc]
    exact acceptedState_turns s (consumedTable s w mv) mv (newPlayer s mv)
  have hlen : 1 < (mainLoopStep s mv).turns.length := by
    rw [hstep]
    have hpos : 0 < s.turns.length := List.length_pos.mpr hne
    simp only [List.length_append, List.length_cons, List.length_nil]
    omega
  have hturns : (mainLoopStep (mainLoopStep s mv) Move.undo).turns = s.turns := by
    rw [mainLoopStep_undo, if_pos hlen]
    show (mainLoopStep s mv).turns.dropLast = s.turns
    rw [hstep]
    exact dropLast_append_single s.turns _
  refine ⟨hturns, ?_, ?_, ?_⟩
  · unfold currentTurn
    rw [hturns]
  · intro hl
    rw [mainLoopStep_undo, if_pos hl]
  · intro hl
    rw [mainLoopStep_undo, if_neg hl]

/-- Witness for C5: the accepted right move of the loss session then undo,
and the pop behaviour at a two-turn and at a one-turn stack. -/
theorem c5_witness :
    (mainLoopStep (mainLoopStep lossS0 Move.right) Move.undo).turns = lossS0.turns ∧
    currentTurn (mainLoopStep (mainLoopStep lossS0 Move.right) Move.undo) =
      currentTurn lossS0 ∧
    ((1 < lossS1.turns.length →
        (mainLoopStep lossS1 Move.undo).turns = lossS1.turns.dropLast) ∧
     (¬ 1 < lossS1.turns.length → mainLoopStep lossS1 Move.undo = lossS1)) :=
  c5_undo_inverse lossS0 lossS1 Move.right (validMoves lossS0.maze (2, 0))
    (by decide) (by decide) (by decide) rfl (by decide)

/-- C3 counterexample: loading a maze with no finish glyph and the player
glyph at the origin makes the initial configuration a win (the player sits
on the default finish coordinate), yet the unchecked set created at load
time is the full valid move set, not the empty set. -/
theorem c3_counterexample :
    (loadMaze winLines).isSome = true ∧
    (currentTurn winS).player = winS.finish ∧
    winS.traversed ((currentTurn winS).player, (currentTurn winS).minotaur) =
      some (validMoves winS.maze (0, 0)) ∧
    winS.traversed ((currentTurn winS).player, (currentTurn winS).minotaur) ≠
      some ∅ ∧
    Move.right ∈ validMoves winS.maze (0, 0) := by
  exact ⟨by decide, by decide, rfl, by decide, by decide⟩

/-- C3 amended: the unchecked set created at load time for the initial
configuration is always the set of valid moves from the player start, with
no terminal pruning; a set created for the first time by the main loop for
a configuration key not yet tracked equals the valid moves from the new
player position, pruned to empty when the new configuration is terminal. -/
theorem c3_fresh_sets (lines : List (List Char)) (s0 s : State) (mv : Move)
    (w : Finset Move)
    (h0 : loadMaze lines = some s0)
    (hmv : mv ≠ Move.undo)
    (ht : ¬ ((currentTurn s).player = (currentTurn s).minotaur ∨
      (currentTurn s).player = s.finish))
    (hw : s.traversed (currentKey s) = some w)
    (hacc : (movePlayer s.maze (currentTurn s).player mv).2 = true)
    (hnew : s.traversed (newKey s mv) = none) :
    (s0.turns.length = 1 ∧
     s0.traversed (currentKey s0) =
       some (validMoves s0.maze (currentTurn s0).player)) ∧
    (mainLoopStep s mv).traversed (newKey s mv) =
      some (if newPlayer s mv = newMinotaur s mv ∨ newPlayer s mv = s.finish then ∅
            else validMoves s.maze (newPlayer s mv)) := by
  constructor
  · unfold loadMaze at h0
    cases haux : loadMazeAux 0 lines ⟨(0, 0), (0, 0), (0, 0)⟩ with
    | none =>
        rw [haux] at h0
        exact absurd h0 (by simp)
    | some p =>
        obtain ⟨maze, st⟩ := p
        rw [haux] at h0
        injection h0 with h
        subst h
        refine ⟨rfl, ?_⟩
        show (if ((st.player, st.minotaur) : Coord × Coord) = (st.player, st.minotaur)
            then some (validMoves maze st.player) else none) =
          some (validMoves maze st.player)
        rw [if_pos rfl]
  · have hkne : newKey s mv ≠ currentKey s := by
      intro he
      rw [he, hw] at hnew
      exact absurd hnew (by simp)
    have ht1 : consumedTable s w mv (newKey s mv) = none := by
      unfold consumedTable
      by_cases hmem : mv ∈ w
      · rw [if_pos hmem]
        show updateTable s.traversed (currentKey s) (w.erase mv) (newKey s mv) = none
        unfold updateTable
        rw [if_neg hkne]
        exact hnew
      · rw [if_neg hmem]
        exact hnew
    rw [mainLoopStep_some s mv w hmv ht hw, mainLoopCore_accepted s w mv hacc]
    show updateTable (consumedTable s w mv) (newKey s mv)
        (if newPlayer s mv = newMinotaur s mv ∨ newPlayer s mv = s.finish then ∅
         else match consumedTable s w mv (newKey s mv) with
           | some u => u
           | none => validMoves s.maze (newPlayer s mv)) (newKey s mv) =
      some (if newPlayer s mv = newMinotaur s mv ∨ newPlayer s mv = s.finish then ∅
            else validMoves s.maze (newPlayer s mv))
    unfold updateTable
    rw [if_pos rfl, ht1]

/-- Witness for the amended C3 at the loss session: the loaded initial set
and the fresh set stored for the configuration reached by the accepted
right move. -/
theorem c3_witness :
    (lossS0.turns.length = 1 ∧
     lossS0.traversed (currentKey lossS0) =
       some (validMoves lossS0.maze (currentTurn lossS0).player)) ∧
    (mainLoopStep lossS0 Move.right).traversed (newKey lossS0 Move.right) =
      some (if newPlayer lossS0 Move.right = newMinotaur lossS0 Move.right ∨
              newPlayer lossS0 Move.right = lossS0.finish then ∅
            else validMoves lossS0.maze (newPlayer lossS0 Move.right)) :=
  c3_fresh_sets lossLines lossS0 lossS0 Move.right (validMoves lossS0.maze (2, 0))
    rfl (by decide) (by decide) rfl (by decide) rfl

/-- C6: at a non-terminal current configuration, a rejected actor move
leaves the turn stack and the current turn unchanged while the move is
removed from the unchecked set of the configuration whenever it was a
member, and the move is not in the stored set afterwards. -/
theorem c6_rejected_move_consumed (s : State) (mv : Move) (w : Finset Move)
    (hmv : isActorMove mv = true)
    (ht : ¬ ((currentTurn s).player = (currentTurn s).minotaur ∨
      (currentTurn s).player = s.finish))
    (hw : s.traversed (currentKey s) = some w)
    (hrej : (movePlayer s.maze (currentTurn s).player mv).2 = false) :
    (mainLoopStep s mv).turns = s.turns ∧
    currentTurn (mainLoopStep s mv) = currentTurn s ∧
    (mainLoopStep s mv).traversed (currentKey s) = some (w.erase mv) ∧
    mv ∉ w.erase mv := by
  have hne : mv ≠ Move.undo := by
    cases mv <;> simp_all [isActorMove, isDirectional]
  rw [mainLoopStep_some s mv w hne ht hw, mainLoopCore_rejected s w mv hrej]
  refine ⟨rfl, rfl, ?_, Finset.not_mem_erase mv w⟩
  unfold consumedTable
  by_cases hmem : mv ∈ w
  · rw [if_pos hmem]
    show updateTable s.traversed (currentKey s) (w.erase mv) (currentKey s) =
      some (w.erase mv)
    unfold updateTable
    rw [if_pos rfl]
  · rw [if_neg hmem]
    show s.traversed (currentKey s) = some (w.erase mv)
    rw [hw, Finset.erase_eq_of_not_mem hmem]

/-- Witness for C6: at the loaded loss maze an up move is rejected. -/
theorem c6_witness :
    (mainLoopStep lossS0 Move.up).turns = lossS0.turns ∧
    currentTurn (mainLoopStep lossS0 Move.up) = currentTurn lossS0 ∧
    (mainLoopStep lossS0 Move.up).traversed (currentKey lossS0) =
      some ((validMoves lossS0.maze (2, 0)).erase Move.up) ∧
    Move.up ∉ (validMoves lossS0.maze (2, 0)).erase Move.up :=
  c6_rejected_move_consumed lossS0 Move.up (validMoves lossS0.maze (2, 0))
    (by decide) (by decide) rfl (by decide)

/-- A tracked key stays tracked across one iteration and its set can only
shrink: no removed move ever reappears. -/
lemma traversed_shrinks (s : State) (mv : Move) (k : Coord × Coord)
    (v : Finset Move) (h : s.traversed k = some v) :
    ∃ v2, (mainLoopStep s mv).traversed k = some v2 ∧ v2 ⊆ v := by
  by_cases hu : mv = Move.undo
  · subst hu
    rw [mainLoopStep_undo]
    by_cases hl : 1 < s.turns.length
    · rw [if_pos hl]
      exact ⟨v, h, Finset.Subset.refl v⟩
    · rw [if_neg hl]
      exact ⟨v, h, Finset.Subset.refl v⟩
  · by_cases hter : (currentTurn s).player = (currentTurn s).minotaur ∨
        (currentTurn s).player = s.finish
    · rw [mainLoopStep_terminal s mv hu hter]
      exact ⟨v, h, Finset.Subset.refl v⟩
    · cases hw : s.traversed (currentKey s) with
      | none =>
          rw [mainLoopStep_none s mv hu hter hw]
          exact ⟨v, h, Finset.Subset.refl v⟩
      | some w =>
          rw [mainLoopStep_some s mv w hu hter hw]
          have hcons : ∃ v1, consumedTable s w mv k = some v1 ∧ v1 ⊆ v := by
            unfold consumedTable
            by_cases hmem : mv ∈ w
            · rw [if_pos hmem]
              show ∃ v1,
                updateTable s.traversed (currentKey s) (w.erase mv) k = some v1 ∧
                  v1 ⊆ v
              unfold updateTable
              by_cases hk : k = currentKey s
              · rw [if_pos hk]
                have hvw : w = v := by
                  rw [hk, hw] at h
                  injection h
                refine ⟨w.erase mv, rfl, ?_⟩
                rw [hvw]
                exact Finset.erase_subset mv v
              · rw [if_neg hk]
                exact ⟨v, h, Finset.Subset.refl v⟩
            · rw [if_neg hmem]
              exact ⟨v, h, Finset.Subset.refl v⟩
          obtain ⟨v1, hv1, hs1⟩ := hcons
          cases hval : (movePlayer s.maze (currentTurn s).player mv).2 with
          | false =>
              rw [mainLoopCore_rejected s w mv hval]
              exact ⟨v1, hv1, hs1⟩
          | true =>
              rw [mainLoopCore_accepted s w mv hval]
              show ∃ v2,
                updateTable (consumedTable s w mv) (newKey s mv)
                  (if newPlayer s mv = newMinotaur s mv ∨ newPlayer s mv = s.finish
                   then ∅
                   else match consumedTable s w mv (newKey s mv) with
                     | some u2 => u2
                     | none => validMoves s.maze (newPlayer s mv)) k = some v2 ∧
                  v2 ⊆ v
              unfold updateTable
              by_cases hk2 : k = newKey s mv
              · rw [if_pos hk2]
                by_cases hter2 : newPlayer s mv = newMinotaur s mv ∨
                    newPlayer s mv = s.finish
                · rw [if_pos hter2]
                  exact ⟨∅, rfl, Finset.empty_subset v⟩
                · rw [if_neg hter2, ← hk2, hv1]
                  exact ⟨v1, rfl, hs1⟩
              · rw [if_neg hk2]
                exact ⟨v1, hv1, hs1⟩

/-- A tracked key stays tracked along any run of iterations and its set
only shrinks. -/
lemma runMoves_shrinks (ms : List Move) (s : State) (k : Coord × Coord)
    (v : Finset Move) (h : s.traversed k = some v) :
    ∃ v2, (runMoves s ms).traversed k = some v2 ∧ v2 ⊆ v := by
  induction ms generalizing s v with
  | nil => exact ⟨v, h, Finset.Subset.refl v⟩
  | cons m rest ih =>
      obtain ⟨v1, h1, hs1⟩ := traversed_shrinks s m k v h
      obtain ⟨v2, h2, hs2⟩ := ih (mainLoopStep s m) v1 h1
      exact ⟨v2, h2, hs2.trans hs1⟩

/-- C4: when an accepted move reaches a configuration key already present
in the table whose stored set honours the terminal-pruning invariant, the
set stored afterwards is exactly the set that remained there after the
consumptions so far (including this iteration's own consumption when the
reached key is the current key); and along any further run of iterations a
tracked key keeps a stored set that only shrinks, so a move removed from a
key is never offered from it again. -/
theorem c4_memoized_unchecked_sets (s t : State) (mv x : Move) (ms : List Move)
    (w u v : Finset Move) (k : Coord × Coord)
    (hmv : mv ≠ Move.undo)
    (ht : ¬ ((currentTurn s).player = (currentTurn s).minotaur ∨
      (currentTurn s).player = s.finish))
    (hw : s.traversed (currentKey s) = some w)
    (hacc : (movePlayer s.maze (currentTurn s).player mv).2 = true)
    (hu : s.traversed (newKey s mv) = some u)
    (huterm : (newPlayer s mv = newMinotaur s mv ∨ newPlayer s mv = s.finish) →
      u = ∅)
    (htk : t.traversed k = some v) (hx : x ∉ v) :
    (mainLoopStep s mv).traversed (newKey s mv) =
      some (if newKey s mv = currentKey s ∧ mv ∈ u then u.erase mv else u) ∧
    (∃ v2, (runMoves t ms).traversed k = some v2 ∧ v2 ⊆ v ∧ x ∉ v2) := by
  constructor
  · have ht1 : consumedTable s w mv (newKey s mv) =
        some (if newKey s mv = currentKey s ∧ mv ∈ u then u.erase mv else u) := by
      unfold consumedTable
      by_cases hk : newKey s mv = currentKey s
      · have hwu : w = u := by
          rw [hk, hw] at hu
          injection hu
        by_cases hmem : mv ∈ w
        · have hmemu : mv ∈ u := by
            rw [← hwu]
            exact hmem
          rw [if_pos hmem]
          show updateTable s.traversed (currentKey s) (w.erase mv) (newKey s mv) =
            some (if newKey s mv = currentKey s ∧ mv ∈ u then u.erase mv else u)
          unfold updateTable
          rw [if_pos hk, if_pos ⟨hk, hmemu⟩, hwu]
        · have hmemu : mv ∉ u := by
            rw [← hwu]
            exact hmem
          rw [if_neg hmem, hu, if_neg (fun hc => hmemu hc.2)]
      · by_cases hmem : mv ∈ w
        · rw [if_pos hmem]
          show updateTable s.traversed (currentKey s) (w.erase mv) (newKey s mv) =
            some (if newKey s mv = currentKey s ∧ mv ∈ u then u.erase mv else u)
          unfold updateTable
          rw [if_neg hk, hu, if_neg (fun hc => hk hc.1)]
        · rw [if_neg hmem, hu, if_neg (fun hc => hk hc.1)]
    rw [mainLoopStep_some s mv w hmv ht hw, mainLoopCore_accepted s w mv hacc]
    show updateTable (consumedTable s w mv) (newKey s mv)
        (if newPlayer s mv = newMinotaur s mv ∨ newPlayer s mv = s.finish then ∅
         else match consumedTable s w mv (newKey s mv) with
           | some u2 => u2
           | none => validMoves s.maze (newPlayer s mv)) (newKey s mv) =
      some (if newKey s mv = currentKey s ∧ mv ∈ u then u.erase mv else u)
    unfold updateTable
    rw [if_pos rfl, ht1]
    by_cases hter2 : newPlayer s mv = newMinotaur s mv ∨ newPlayer s mv = s.finish
    · rw [if_pos hter2]
      have hue : u = ∅ := huterm hter2
      subst hue
      simp
    · rw [if_neg hter2]
  · obtain ⟨v2, h2, hs2⟩ := runMoves_shrinks ms t k v htk
    exact ⟨v2, h2, hs2, fun hm => hx (hs2 hm)⟩

/-- Witness for C4 at the memo maze: a skip move is accepted and reaches
the current configuration again, and a two-iteration run keeps the key
tracked with a shrunken set. -/
theorem c4_witness :
    ((mainLoopStep memoS0 Move.skip).traversed (newKey memoS0 Move.skip) =
      some (if newKey memoS0 Move.skip = currentKey memoS0 ∧
              Move.skip ∈ validMoves memoS0.maze (2, 0)
            then (validMoves memoS0.maze (2, 0)).erase Move.skip
            else validMoves memoS0.maze (2, 0))) ∧
    (∃ v2, (runMoves memoS0 [Move.skip, Move.undo]).traversed (currentKey memoS0) =
        some v2 ∧ v2 ⊆ validMoves memoS0.maze (2, 0) ∧ Move.up ∉ v2) :=
  c4_memoized_unchecked_sets memoS0 memoS0 Move.skip Move.up
    [Move.skip, Move.undo] (validMoves memoS0.maze (2, 0))
    (validMoves memoS0.maze (2, 0)) (validMoves memoS0.maze (2, 0))
    (currentKey memoS0) (by decide) (by decide) rfl (by decide) rfl (by decide)
    rfl (by decide)

/-- C8: for every accepted player move, the new current turn holds the
post-move player position and the minotaur position obtained by applying
the pursuit step twice, both calls from the post-move player position and
the second from the position the first produced. -/
theorem c8_minotaur_double_step (s : State) (mv : Move) (w : Finset Move)
    (hmv : mv ≠ Move.undo)
    (ht : ¬ ((currentTurn s).player = (currentTurn s).minotaur ∨
      (currentTurn s).player = s.finish))
    (hw : s.traversed (currentKey s) = some w)
    (hacc : (movePlayer s.maze (currentTurn s).player mv).2 = true) :
    currentTurn (mainLoopStep s mv) =
      ⟨newPlayer s mv,
       moveMinotaur s.maze (newPlayer s mv)
         (moveMinotaur s.maze (newPlayer s mv) (currentTurn s).minotaur),
       (currentTurn s).moves ++ [mv]⟩ := by
  rw [mainLoopStep_some s mv w hmv ht hw, mainLoopCore_accepted s w mv hacc]
  unfold currentTurn
  rw [acceptedState_turns]
  exact getLastD_append_single _ _ _

/-- Witness for C8: the accepted right move of the loss session. -/
theorem c8_witness :
    currentTurn (mainLoopStep lossS0 Move.right) =
      ⟨newPlayer lossS0 Move.right,
       moveMinotaur lossS0.maze (newPlayer lossS0 Move.right)
         (moveMinotaur lossS0.maze (newPlayer lossS0 Move.right)
           (currentTurn lossS0).minotaur),
       (currentTurn lossS0).moves ++ [Move.right]⟩ :=
  c8_minotaur_double_step lossS0 Move.right (validMoves lossS0.maze (2, 0))
    (by decide) (by decide) rfl (by decide)

end Theseus
